import Mathlib

/-!
Shallow embedding of the package-identity and registry-operations core of a
source-package manager (files `src/cargo/core/package.rs` and
`src/cargo/ops/registry.rs`), together with theorems settling the frozen
claims about it.

Rust strings are modelled as Lean `String` except where byte-level structure
matters (the search-description truncation), where they are modelled as
`List Char` with UTF-8 byte counts via `Char.utf8Size`.  Fallible Rust
functions returning `CargoResult` are modelled with `Except String`.
Observable side effects (source downloads, registry publish/yank calls,
shell warnings) are returned as explicit effect lists.
-/

set_option maxRecDepth 16384

namespace Cargo

/-- Kinds of package sources: a local filesystem path, a remote registry, or
a version-controlled repository.  `SourceId::is_path` is true exactly for the
path kind. -/
inductive SourceKind
  | path
  | registry
  | git
deriving DecidableEq

/-- A source identifier: the kind of origin plus its URL (for a path source,
the path itself).  Equality is structural, as in the source. -/
structure SourceId where
  kind : SourceKind
  url : String
deriving DecidableEq

/-- Whether this source identifier denotes a local filesystem path. -/
def SourceId.is_path : SourceId → Bool
  | ⟨SourceKind.path, _⟩ => true
  | _ => false

/-- Construct the source identifier of a registry at the given URL. -/
def SourceId.for_registry (url : String) : SourceId :=
  ⟨SourceKind.registry, url⟩

/-- Construct the source identifier of a local path. -/
def SourceId.for_path (p : String) : SourceId :=
  ⟨SourceKind.path, p⟩

/-- Dependency kinds, from `core::dependency::Kind`: normal, build, or
development dependencies. -/
inductive Kind
  | Normal
  | Build
  | Development
deriving DecidableEq

/-- A declared dependency.  The type itself lives in `core/dependency.rs`
(not under `src/`); its fields follow the data model of the spec and the
accessors used by `registry.rs`: name, version requirement, source
identifier, kind, optional flag, default-features flag, feature list,
platform filter, and the specified-version flag recording whether the author
wrote an explicit requirement. -/
structure Dependency where
  name : String
  version_req : String
  source_id : SourceId
  kind : Kind
  optional : Bool
  default_features : Bool
  features : List String
  platform : Option String
  specified_req : Bool
deriving DecidableEq

/-- Build-target kinds (libraries, binaries, tests, benchmarks, examples,
custom build scripts). -/
inductive TargetKind
  | Lib
  | Bin
  | Test
  | Bench
  | Example
  | CustomBuild
deriving DecidableEq

/-- A build target: a name and a kind. -/
structure Target where
  name : String
  kind : TargetKind
deriving DecidableEq

/-- Whether a target is a custom build script. -/
def Target.is_custom_build (t : Target) : Bool :=
  t.kind == TargetKind.CustomBuild

/-- Package identity: name, version, and source identifier.  Equality is
defined purely on this tuple. -/
structure PackageId where
  name : String
  version : String
  source_id : SourceId
deriving DecidableEq

/-- Package metadata carried by the manifest, as destructured by
`transmit`. -/
structure ManifestMetadata where
  authors : List String
  description : Option String
  homepage : Option String
  documentation : Option String
  keywords : List String
  readme : Option String
  repository : Option String
  license : Option String
  license_file : Option String
deriving DecidableEq

/-- A manifest: package identity, dependency list, build targets, metadata,
publish flag, and feature map (the map modelled as an association list). -/
structure Manifest where
  package_id : PackageId
  dependencies : List Dependency
  targets : List Target
  metadata : ManifestMetadata
  publish : Bool
  features : List (String × List String)
deriving DecidableEq

/-- A package: one manifest plus the path of the manifest file on disk. -/
structure Package where
  manifest : Manifest
  manifest_path : String
deriving DecidableEq

/-- Parent directory of a path string (everything before the last slash),
modelling `Path::parent`. -/
def parentDir (p : String) : String :=
  String.intercalate "/" ((p.splitOn "/").dropLast)

/-- Join a directory and a file name, modelling `Path::join`. -/
def joinPath (dir file : String) : String :=
  dir ++ "/" ++ file

def Package.dependencies (p : Package) : List Dependency :=
  p.manifest.dependencies

def Package.package_id (p : Package) : PackageId :=
  p.manifest.package_id

def Package.name (p : Package) : String :=
  p.package_id.name

def Package.version (p : Package) : String :=
  p.package_id.version

def Package.targets (p : Package) : List Target :=
  p.manifest.targets

def Package.publish (p : Package) : Bool :=
  p.manifest.publish

def Package.root (p : Package) : String :=
  parentDir p.manifest_path

def Package.has_custom_build (p : Package) : Bool :=
  p.targets.any (fun t => t.is_custom_build)

/-- Modelled from the spec: `lev_distance` lives in `util` (not under
`src/`); the spec calls it the edit distance between two strings.  This is
the standard Levenshtein distance on characters, with unit insertion,
deletion and substitution costs. -/
def lev_distance (a b : String) : Nat :=
  levenshtein Levenshtein.defaultCost a.toList b.toList

/-- The fold underlying `min_by_key`: keep the accumulator unless a strictly
smaller key appears, so the first minimal element in iteration order wins. -/
def minFold {α : Type} (x : Nat × α) (xs : List (Nat × α)) : Nat × α :=
  xs.foldl (fun acc y => if y.1 < acc.1 then y else acc) x

/-- First minimum of a list keyed by the first component, modelling
`Iterator::min_by_key`: when several elements are equally minimal, the
first one in iteration order is returned. -/
def minByFirst {α : Type} (l : List (Nat × α)) : Option (Nat × α) :=
  match l with
  | [] => none
  | x :: xs => some (minFold x xs)

/-- The candidate list built inside `find_closest_target`: targets of the
requested kind, paired with their edit distance to the query, keeping only
those at distance strictly below 4. -/
def closestCandidates (p : Package) (target : String) (kind : TargetKind) :
    List (Nat × Target) :=
  ((p.targets.filter (fun t => t.kind == kind)).map
    (fun t => (lev_distance target t.name, t))).filter (fun dt => dt.1 < 4)

/-- Among targets of the given kind, return the one whose name is at minimal
edit distance (strictly below 4) from the query, if any; ties keep the first
candidate in target-list order. -/
def Package.find_closest_target (p : Package) (target : String)
    (kind : TargetKind) : Option Target :=
  (minByFirst (closestCandidates p target kind)).map (fun dt => dt.2)

/-- A pluggable source, reduced to the one capability `PackageSet::get`
uses: downloading a package by identifier. -/
structure Source where
  download : PackageId → Except String Package

/-- Observable effects of a `PackageSet::get` call: taking the mutable
borrow of the shared source map, and invoking a source download. -/
inductive PkgSetEffect
  | source_access
  | download (id : PackageId)
deriving DecidableEq

/-- A set of package identifiers, each paired with a memo slot, plus the
shared source map (modelled as an association list). -/
structure PackageSet where
  packages : List (PackageId × Option Package)
  sources : List (SourceId × Source)

/-- Construct a package set from a list of identifiers and a source map;
every memo slot starts empty. -/
def PackageSet.new (package_ids : List PackageId)
    (sources : List (SourceId × Source)) : PackageSet :=
  { packages := package_ids.map (fun id => (id, none))
    sources := sources }

/-- The identifiers of the set, in order. -/
def PackageSet.package_ids (ps : PackageSet) : List PackageId :=
  ps.packages.map Prod.fst

/-- Look up the source registered under a source identifier, modelling
`SourceMap::get_mut`. -/
def lookupSource : List (SourceId × Source) → SourceId → Option Source
  | [], _ => none
  | (sid, s) :: rest, id => if sid = id then some s else lookupSource rest id

/-- Fill the memo slot of the first entry with the given identifier,
modelling `LazyCell::fill` on the slot found by `get`. -/
def fillSlot : List (PackageId × Option Package) → PackageId → Package →
    List (PackageId × Option Package)
  | [], _, _ => []
  | (i, s) :: rest, id, pkg =>
    if i = id then (i, some pkg) :: rest else (i, s) :: fillSlot rest id pkg

/-- `PackageSet::get`: find the slot for `id` (Not-Found error if absent);
if the slot is filled return the stored package with no source access;
otherwise borrow the source map, look up the source for the identifier of
`id` (Not-Found error if absent), download, fill the slot, and return the
package.  The result carries the updated set and the effect trace. -/
def PackageSet.get (ps : PackageSet) (id : PackageId) :
    Except String Package × PackageSet × List PkgSetEffect :=
  match ps.packages.find? (fun p => p.1 == id) with
  | none =>
    (Except.error ("could not find `" ++ id.name ++ "` in package set"), ps, [])
  | some (_, some pkg) => (Except.ok pkg, ps, [])
  | some (_, none) =>
    match lookupSource ps.sources id.source_id with
    | none =>
      (Except.error ("could not find source for `" ++ id.name ++ "`"), ps,
        [PkgSetEffect.source_access])
    | some source =>
      match source.download id with
      | Except.error _ =>
        (Except.error "unable to get packages from source", ps,
          [PkgSetEffect.source_access, PkgSetEffect.download id])
      | Except.ok pkg =>
        (Except.ok pkg,
          { ps with packages := fillSlot ps.packages id pkg },
          [PkgSetEffect.source_access, PkgSetEffect.download id])

/-- Check dependencies against publishing rules: a path dependency must have
an explicitly specified version requirement; any other dependency must come
from exactly the target registry source. -/
def verifyDepsList (registry_src : SourceId) : List Dependency →
    Except String Unit
  | [] => Except.ok ()
  | dep :: rest =>
    if dep.source_id.is_path then
      if !dep.specified_req then
        Except.error ("all path dependencies must have a version specified " ++
          "when publishing.\ndependency `" ++ dep.name ++
          "` does not specify a version")
      else verifyDepsList registry_src rest
    else if dep.source_id != registry_src then
      Except.error ("all dependencies must come from the same source.\n" ++
        "dependency `" ++ dep.name ++ "` comes from " ++ dep.source_id.url ++
        " instead")
    else verifyDepsList registry_src rest

/-- `verify_dependencies` from `registry.rs`: iterate the dependency list of
the package, failing on the first offending dependency. -/
def verify_dependencies (pkg : Package) (registry_src : SourceId) :
    Except String Unit :=
  verifyDepsList registry_src pkg.dependencies

/-- Total UTF-8 byte length of a string modelled as a character list. -/
def utf8Len (s : List Char) : Nat :=
  (s.map Char.utf8Size).sum

/-- Byte-indexed slicing `&s[..n]`: succeeds with the character prefix of
exactly `n` bytes when `n` falls on a character boundary within the string;
`none` models the panic raised otherwise. -/
def byteSlice : List Char → Nat → Option (List Char)
  | _, 0 => some []
  | [], _ + 1 => none
  | c :: cs, n + 1 =>
    if c.utf8Size ≤ n + 1 then
      (byteSlice cs (n + 1 - c.utf8Size)).map (fun p => c :: p)
    else none

/-- `truncate_with_ellipsis` from `search`: a string whose byte length is
strictly below `max_length` is returned unchanged; otherwise the first
`max_length - 1` bytes are kept and a single ellipsis character is appended.
The byte slice is `none` (a panic) when byte index `max_length - 1` is not a
character boundary. -/
def truncate_with_ellipsis (s : List Char) (max_length : Nat) :
    Option (List Char) :=
  if utf8Len s < max_length then some s
  else (byteSlice s (max_length - 1)).map (fun p => p ++ ['…'])

/-- Replace every newline character by a space, modelling
`desc.replace("\n", " ")`. -/
def replaceNewlineWithSpace (s : List Char) : List Char :=
  s.map (fun c => if c = '\n' then ' ' else c)

/-- The description transformation applied to each search row: collapse
newlines to spaces, then truncate to 128 bytes with an ellipsis. -/
def search_description (desc : List Char) : Option (List Char) :=
  truncate_with_ellipsis (replaceNewlineWithSpace desc) 128

/-- Modelled from the spec: the query percent-encode set of the third-party
`url` crate: C0 control bytes, space, double quote, hash, less-than,
greater-than, and every byte at or above 0x7f. -/
def queryEncodeSet (b : UInt8) : Bool :=
  b < 0x20 || b == 0x20 || b == 0x22 || b == 0x23 || b == 0x3c ||
    b == 0x3e || b ≥ 0x7f

/-- Uppercase hexadecimal digit for a value below 16. -/
def hexUpper (n : Nat) : Char :=
  if n < 10 then Char.ofNat (48 + n) else Char.ofNat (55 + n)

/-- Percent-encode a single byte: bytes in the encode set become a percent
sign followed by two uppercase hexadecimal digits; all others pass through
unchanged. -/
def percentEncodeByte (b : UInt8) : List Char :=
  if queryEncodeSet b then ['%', hexUpper (b.toNat / 16), hexUpper (b.toNat % 16)]
  else [Char.ofNat b.toNat]

/-- Modelled from the spec: `percent_encode` of the third-party `url` crate,
applied bytewise over the query for URL safety. -/
def percent_encode : List UInt8 → List Char
  | [] => []
  | b :: rest => percentEncodeByte b ++ percent_encode rest

/-- The hint printed at the end of `search` when more results exist than
were shown: below the maximum supported limit (100) the hint suggests
increasing `--limit`; at or above it the hint points at the registry web
search with the query percent-encoded.  No hint is printed when the total
does not exceed the limit. -/
def search_hint (total_crates limit : Nat) (query : List UInt8) :
    Option String :=
  let search_max_limit := 100
  if total_crates > limit ∧ limit < search_max_limit then
    some ("... and " ++ toString (total_crates - limit) ++
      " crates more (use --limit N to see more)")
  else if total_crates > limit ∧ limit ≥ search_max_limit then
    some ("... and " ++ toString (total_crates - limit) ++
      " crates more (go to http://crates.io/search?q=" ++
      String.mk (percent_encode query) ++ " to see more)")
  else none

/-- The persisted configuration store plus the network-access gate: string
and integer values keyed by dotted names. -/
structure Config where
  strings : List (String × String)
  ints : List (String × Int)
  network_allowed : Bool

/-- Read an optional string configuration value. -/
def Config.get_string (c : Config) (key : String) : Option String :=
  (c.strings.find? (fun kv => kv.1 == key)).map Prod.snd

/-- Read an optional integer configuration value. -/
def Config.get_i64 (c : Config) (key : String) : Option Int :=
  (c.ints.find? (fun kv => kv.1 == key)).map Prod.snd

/-- The two optional registry configuration values. -/
structure RegistryConfig where
  index : Option String
  token : Option String

/-- `registry_configuration`: read the optional index override and token
from the persisted configuration. -/
def registry_configuration (config : Config) : RegistryConfig :=
  { index := config.get_string "registry.index"
    token := config.get_string "registry.token" }

/-- Modelled from the spec: `RegistrySource::default_url` (not under
`src/`), the built-in default registry URL used when neither an explicit
index argument nor a configured one is present. -/
def default_url : String :=
  "https://github.com/rust-lang/crates.io-index"

/-- Modelled from the spec: parsing an index string to a URL, whose failure
is surfaced as a user-facing error; URL validity is modelled as the string
being nonempty, and a valid URL parses to itself. -/
def to_url (s : String) : Except String String :=
  if s.isEmpty then Except.error ("invalid url `" ++ s ++ "`")
  else Except.ok s

/-- Modelled from the spec: the registry-flavored source collaborator
(`RegistrySource`, not under `src/`): the outcome of its `update` and its
resolved configuration (the API host), per source identifier. -/
structure RegistryEnv where
  update_result : SourceId → Except String Unit
  api : SourceId → Except String String

/-- Modelled from the spec: ambient environment consulted by the transport
configuration: the version-control tool global proxy and the process
environment variables. -/
structure HttpEnv where
  git_proxy : Option String
  env : String → Option String

/-- A transport handle, holding the pieces of configuration cargo sets on
it: connect timeout, low-speed limit and window, and optional proxy. -/
structure Easy where
  connect_timeout : Nat
  low_speed_limit : Nat
  low_speed_time : Nat
  proxy : Option String
deriving DecidableEq

/-- Find an explicit HTTP proxy: the `http.proxy` configuration value if
present, else the version-control tool global proxy; environment-variable
proxies are handled transparently by the transport layer. -/
def http_proxy (config : Config) (henv : HttpEnv) : Option String :=
  match config.get_string "http.proxy" with
  | some s => some s
  | none => henv.git_proxy

/-- The override timeout: the `http.timeout` configuration value if present,
else the `HTTP_TIMEOUT` environment variable parsed as an integer. -/
def http_timeout (config : Config) (henv : HttpEnv) : Option Int :=
  match config.get_i64 "http.timeout" with
  | some s => some s
  | none => (henv.env "HTTP_TIMEOUT").bind (fun s => s.toInt?)

/-- Whether an HTTP proxy exists: an explicit proxy value, or any of the
four conventional proxy environment variables. -/
def http_proxy_exists (config : Config) (henv : HttpEnv) : Bool :=
  (http_proxy config henv).isSome ||
    ["http_proxy", "HTTP_PROXY", "https_proxy", "HTTPS_PROXY"].any
      (fun v => (henv.env v).isSome)

/-- `http_handle`: fail when network access is forbidden; otherwise build a
handle with a 30 second connect timeout, a 10 bytes-per-second low-speed
floor over a 30 second window, the resolved proxy, and, if an override
timeout is present, that value replacing both the connect timeout and the
low-speed window. -/
def http_handle (config : Config) (henv : HttpEnv) : Except String Easy :=
  if !config.network_allowed then
    Except.error ("attempting to make an HTTP request, but --frozen was " ++
      "specified")
  else
    let handle : Easy :=
      { connect_timeout := 30
        low_speed_limit := 10
        low_speed_time := 30
        proxy := http_proxy config henv }
    match http_timeout config henv with
    | some timeout =>
      Except.ok { handle with
        connect_timeout := timeout.toNat
        low_speed_time := timeout.toNat }
    | none => Except.ok handle

/-- A registry client bound to an API host, an optional token, and a
transport handle, as built by `Registry::new_handle`. -/
structure Registry where
  host : String
  token : Option String
  handle : Easy
deriving DecidableEq

/-- The registry bootstrap: resolve the effective token as
explicit-argument-else-config and the effective index as
explicit-argument-else-config-else-default; parse the index to a URL; derive
the registry source identifier; update the registry source (wrapping
failures); read the API host from its configuration; build the transport
handle; return the bound client and the source identifier. -/
def registry (renv : RegistryEnv) (henv : HttpEnv) (config : Config)
    (token index : Option String) : Except String (Registry × SourceId) :=
  let rc := registry_configuration config
  let token := token.or rc.token
  let index := (index.or rc.index).getD default_url
  match to_url index with
  | Except.error e => Except.error e
  | Except.ok indexUrl =>
    let sid := SourceId.for_registry indexUrl
    match renv.update_result sid with
    | Except.error _ =>
      Except.error ("failed to update registry " ++ indexUrl)
    | Except.ok _ =>
      match renv.api sid with
      | Except.error e => Except.error e
      | Except.ok api_host =>
        match http_handle config henv with
        | Except.error e => Except.error e
        | Except.ok handle =>
          Except.ok ({ host := api_host, token := token, handle := handle },
            sid)

/-- One wire dependency record of the publish payload. -/
structure NewCrateDependency where
  optional : Bool
  default_features : Bool
  name : String
  features : List String
  version_req : String
  target : Option String
  kind : String
deriving DecidableEq

/-- The publish payload sent to the registry. -/
structure NewCrate where
  name : String
  vers : String
  deps : List NewCrateDependency
  features : List (String × List String)
  authors : List String
  description : Option String
  homepage : Option String
  documentation : Option String
  keywords : List String
  readme : Option String
  repository : Option String
  license : Option String
  license_file : Option String
deriving DecidableEq

/-- Observable effects of `transmit`: a shell warning, or a publish call
carrying its payload. -/
inductive TransmitEffect
  | warn (msg : String)
  | publish (krate : NewCrate)
deriving DecidableEq

/-- The wire dependency records built by `transmit` from the package
dependency list; the kind tag is exactly one of "normal", "build", "dev". -/
def newCrateDeps (pkg : Package) : List NewCrateDependency :=
  pkg.dependencies.map (fun dep =>
    { optional := dep.optional
      default_features := dep.default_features
      name := dep.name
      features := dep.features
      version_req := dep.version_req
      target := dep.platform
      kind := match dep.kind with
        | Kind.Normal => "normal"
        | Kind.Build => "build"
        | Kind.Development => "dev" })

/-- The publish payload assembled by `transmit` from the package, its
metadata, and the readme content read from disk. -/
def mkNewCrate (pkg : Package) (readme : Option String) : NewCrate :=
  { name := pkg.name
    vers := pkg.version
    deps := newCrateDeps pkg
    features := pkg.manifest.features
    authors := pkg.manifest.metadata.authors
    description := pkg.manifest.metadata.description
    homepage := pkg.manifest.metadata.homepage
    documentation := pkg.manifest.metadata.documentation
    keywords := pkg.manifest.metadata.keywords
    readme := readme
    repository := pkg.manifest.metadata.repository
    license := pkg.manifest.metadata.license
    license_file := pkg.manifest.metadata.license_file }

/-- `transmit`: build the wire dependency records; read the readme file when
one is declared (read failures propagate); fail when a declared license file
does not exist on disk; on a dry run emit a warning and return success with
no publish call; otherwise perform exactly one publish call, whose outcome
is the given registry response.  The filesystem is modelled as a partial map
from paths to file contents, and the registry response as a parameter. -/
def transmit (pkg : Package) (fs : String → Option String)
    (publish_result : Except String Unit) (dry_run : Bool) :
    Except String Unit × List TransmitEffect :=
  let meta := pkg.manifest.metadata
  let readmeResult : Except String (Option String) :=
    match meta.readme with
    | some readme =>
      match fs (joinPath pkg.root readme) with
      | some content => Except.ok (some content)
      | none =>
        Except.error ("failed to read `" ++ joinPath pkg.root readme ++ "`")
    | none => Except.ok none
  match readmeResult with
  | Except.error e => (Except.error e, [])
  | Except.ok readme =>
    let licenseCheck : Except String Unit :=
      match meta.license_file with
      | some file =>
        if (fs (joinPath pkg.root file)).isNone then
          Except.error ("the license file `" ++ file ++ "` does not exist")
        else Except.ok ()
      | none => Except.ok ()
    match licenseCheck with
    | Except.error e => (Except.error e, [])
    | Except.ok _ =>
      if dry_run then
        (Except.ok (), [TransmitEffect.warn "aborting upload due to dry run"])
      else
        let krate : NewCrate := mkNewCrate pkg readme
        match publish_result with
        | Except.ok _ => (Except.ok (), [TransmitEffect.publish krate])
        | Except.error e =>
          (Except.error e, [TransmitEffect.publish krate])

/-- Observable effects of `yank`: constructing the registry client,
reporting a status line, and the yank or unyank registry calls. -/
inductive YankEffect
  | registry_construct
  | status (action : String) (line : String)
  | yank_call (name : String) (version : String)
  | unyank_call (name : String) (version : String)
deriving DecidableEq

/-- Modelled from the spec: the collaborators of `yank` that live outside
`src/`: locating the workspace root manifest and reading its package name,
and the outcomes of constructing the registry client and of the yank and
unyank registry operations. -/
structure YankEnv where
  workspace_name : Except String String
  registry_result : Except String Unit
  yank_result : Except String Unit
  unyank_result : Except String Unit

/-- `yank`: resolve the package name from the explicit argument or the
workspace manifest; fail when no version is given; construct the registry
client; report a status line; call unyank or yank according to `undo`,
wrapping API failures. -/
def yank (env : YankEnv) (krate : Option String) (version : Option String)
    (undo : Bool) : Except String Unit × List YankEffect :=
  let nameResult : Except String String :=
    match krate with
    | some name => Except.ok name
    | none => env.workspace_name
  match nameResult with
  | Except.error e => (Except.error e, [])
  | Except.ok name =>
    match version with
    | none => (Except.error "a version must be specified to yank", [])
    | some version =>
      match env.registry_result with
      | Except.error e => (Except.error e, [YankEffect.registry_construct])
      | Except.ok _ =>
        if undo then
          match env.unyank_result with
          | Except.error e =>
            (Except.error ("failed to undo a yank: " ++ e),
              [YankEffect.registry_construct,
                YankEffect.status "Unyank" (name ++ ":" ++ version),
                YankEffect.unyank_call name version])
          | Except.ok _ =>
            (Except.ok (),
              [YankEffect.registry_construct,
                YankEffect.status "Unyank" (name ++ ":" ++ version),
                YankEffect.unyank_call name version])
        else
          match env.yank_result with
          | Except.error e =>
            (Except.error ("failed to yank: " ++ e),
              [YankEffect.registry_construct,
                YankEffect.status "Yank" (name ++ ":" ++ version),
                YankEffect.yank_call name version])
          | Except.ok _ =>
            (Except.ok (),
              [YankEffect.registry_construct,
                YankEffect.status "Yank" (name ++ ":" ++ version),
                YankEffect.yank_call name version])

/-! Concrete inputs used by the witness and counterexample theorems. -/

/-- A registry source identifier used by concrete examples. -/
def regEx : SourceId := SourceId.for_registry "https://example-registry/index"

/-- A path source identifier used by concrete examples. -/
def pathEx : SourceId := SourceId.for_path "/local/dep"

/-- Empty package metadata. -/
def metaEmpty : ManifestMetadata :=
  { authors := [], description := none, homepage := none,
    documentation := none, keywords := [], readme := none,
    repository := none, license := none, license_file := none }

/-- A concrete package identifier. -/
def pidEx : PackageId := ⟨"foo", "0.1.0", regEx⟩

/-- A second, distinct package identifier. -/
def pidEx2 : PackageId := ⟨"bar", "2.3.4", regEx⟩

/-- A path dependency with an explicitly specified version requirement. -/
def depPathOk : Dependency :=
  { name := "p1", version_req := "^1.0", source_id := pathEx,
    kind := Kind.Normal, optional := false, default_features := true,
    features := [], platform := none, specified_req := true }

/-- A registry dependency from `regEx` with an explicit version. -/
def depRegOk : Dependency :=
  { name := "r1", version_req := "^2.0", source_id := regEx,
    kind := Kind.Build, optional := false, default_features := true,
    features := [], platform := none, specified_req := true }

/-- A development-kind registry dependency from `regEx`. -/
def depRegDev : Dependency :=
  { name := "r2", version_req := "^3.0", source_id := regEx,
    kind := Kind.Development, optional := true, default_features := false,
    features := ["extra"], platform := none, specified_req := true }

/-- A package whose dependencies all satisfy the publishing rules. -/
def pkgC1 : Package :=
  { manifest :=
      { package_id := pidEx, dependencies := [depPathOk, depRegOk, depRegDev],
        targets := [], metadata := metaEmpty, publish := true, features := [] }
    manifest_path := "/work/foo/Cargo.toml" }

/-- A dependency-free package returned by the example source. -/
def pkgPlain : Package :=
  { manifest :=
      { package_id := pidEx, dependencies := [], targets := [],
        metadata := metaEmpty, publish := true, features := [] }
    manifest_path := "/src/foo/Cargo.toml" }

/-- A source that downloads `pkgPlain` for every identifier. -/
def srcEx : Source := ⟨fun _ => Except.ok pkgPlain⟩

/-- A package declaring a license file, used to exercise the on-disk check
inside `transmit`. -/
def pkgC3bad : Package :=
  { manifest :=
      { package_id := pidEx, dependencies := [], targets := [],
        metadata := { metaEmpty with license_file := some "LICENSE" },
        publish := true, features := [] }
    manifest_path := "/work/foo/Cargo.toml" }

/-- A package with two binary targets named "serv" and "client". -/
def pkgC6 : Package :=
  { manifest :=
      { package_id := pidEx, dependencies := []
        targets := [⟨"serv", TargetKind.Bin⟩, ⟨"client", TargetKind.Bin⟩]
        metadata := metaEmpty, publish := true, features := [] }
    manifest_path := "/work/foo/Cargo.toml" }

/-- A package whose only binary target is far from the query "server". -/
def pkgC6far : Package :=
  { manifest :=
      { package_id := pidEx, dependencies := []
        targets := [⟨"client", TargetKind.Bin⟩]
        metadata := metaEmpty, publish := true, features := [] }
    manifest_path := "/work/foo/Cargo.toml" }

/-- The UTF-8 bytes of the query "foo bar". -/
def qC7 : List UInt8 := [0x66, 0x6f, 0x6f, 0x20, 0x62, 0x61, 0x72]

/-- A registry-source environment where update succeeds and the API host
resolves. -/
def renvC8 : RegistryEnv :=
  ⟨fun _ => Except.ok (), fun _ => Except.ok "https://api.example"⟩

/-- An ambient environment with no git proxy and no environment
variables. -/
def henvC8 : HttpEnv := ⟨none, fun _ => none⟩

/-- A configuration store holding only a persisted registry token, with
network access allowed. -/
def cfgC8 : Config :=
  { strings := [("registry.token", "config-token")], ints := [],
    network_allowed := true }

/-- The registry client the bootstrap builds from `cfgC8` with no explicit
arguments. -/
def regC8out : Registry :=
  { host := "https://api.example", token := some "config-token",
    handle := { connect_timeout := 30, low_speed_limit := 10,
                low_speed_time := 30, proxy := none } }

/-- A yank environment where every collaborator succeeds. -/
def envC9 : YankEnv :=
  ⟨Except.ok "workspace-pkg", Except.ok (), Except.ok (), Except.ok ()⟩

/-! Theorems. -/

/-- A source identifier of registry kind is not a path. -/
theorem is_path_false_of_registry (s : SourceId)
    (h : s.kind = SourceKind.registry) : s.is_path = false := by
  obtain ⟨k, u⟩ := s
  cases h
  rfl

/-- Characterization of `verifyDepsList`: it succeeds exactly when every
dependency in the list is a path dependency with an explicitly specified
version, or a non-path dependency from exactly the target registry
source. -/
theorem verifyDepsList_ok_iff (reg : SourceId) (l : List Dependency) :
    verifyDepsList reg l = Except.ok () ↔
    ∀ dep ∈ l, (dep.source_id.is_path = true → dep.specified_req = true) ∧
      (dep.source_id.is_path = false → dep.source_id = reg) := by
  induction l with
  | nil => simp [verifyDepsList]
  | cons dep rest ih =>
    cases hp : dep.source_id.is_path
    · by_cases he : dep.source_id = reg
      · have hp' : reg.is_path = false := he ▸ hp
        simp [verifyDepsList, hp, he, hp', List.forall_mem_cons, ih,
          bne_iff_ne]
      · simp [verifyDepsList, hp, he, List.forall_mem_cons, ih, bne_iff_ne]
    · cases hs : dep.specified_req
      · simp [verifyDepsList, hp, hs, List.forall_mem_cons]
      · simp [verifyDepsList, hp, hs, List.forall_mem_cons, ih]

/-- Claim C1: for every package and target registry source identifier,
`verify_dependencies` errors when some dependency has a path source and no
explicitly specified version requirement, errors when some dependency has a
non-path source different from the registry, and succeeds when every
dependency is either a path dependency with an explicit version or a
dependency whose source equals the registry exactly. -/
theorem c1_verify_dependencies (pkg : Package) (reg : SourceId)
    (hreg : reg.kind = SourceKind.registry) :
    ((∃ dep ∈ pkg.dependencies, dep.source_id.is_path = true ∧
        dep.specified_req = false) →
      ∃ e, verify_dependencies pkg reg = Except.error e) ∧
    ((∃ dep ∈ pkg.dependencies, dep.source_id.is_path = false ∧
        dep.source_id ≠ reg) →
      ∃ e, verify_dependencies pkg reg = Except.error e) ∧
    ((∀ dep ∈ pkg.dependencies, (dep.source_id.is_path = true ∧
        dep.specified_req = true) ∨ dep.source_id = reg) →
      verify_dependencies pkg reg = Except.ok ()) := by
  have key := verifyDepsList_ok_iff reg pkg.dependencies
  refine ⟨?_, ?_, ?_⟩
  · rintro ⟨dep, hd, hp, hs⟩
    cases h : verifyDepsList reg pkg.dependencies with
    | error e => exact ⟨e, h⟩
    | ok u =>
      cases u
      have := (key.mp h dep hd).1 hp
      rw [hs] at this
      cases this
  · rintro ⟨dep, hd, hp, hne⟩
    cases h : verifyDepsList reg pkg.dependencies with
    | error e => exact ⟨e, h⟩
    | ok u =>
      cases u
      exact absurd ((key.mp h dep hd).2 hp) hne
  · intro hall
    apply key.mpr
    intro dep hd
    rcases hall dep hd with ⟨hp, hs⟩ | heq
    · refine ⟨fun _ => hs, fun hnp => ?_⟩
      rw [hp] at hnp
      cases hnp
    · refine ⟨fun hp => ?_, fun _ => heq⟩
      rw [heq, is_path_false_of_registry reg hreg] at hp
      cases hp

/-- Witness for C1 at a concrete package: a path dependency with an explicit
version plus two registry dependencies pass `verify_dependencies`. -/
theorem c1_verify_dependencies_witness :
    regEx.kind = SourceKind.registry ∧
    verify_dependencies pkgC1 regEx = Except.ok () :=
  ⟨by decide, (c1_verify_dependencies pkgC1 regEx (by decide)).2.2 (by decide)⟩

/-- Searching a freshly constructed slot list is searching the identifier
list: every memo slot starts empty. -/
theorem find_fresh (ids : List PackageId) (id : PackageId) :
    ((ids.map (fun i => (i, (none : Option Package)))).find?
      (fun p => p.1 == id)) =
    (ids.find? (fun i => i == id)).map (fun i => (i, none)) := by
  induction ids with
  | nil => rfl
  | cons a rest ih =>
    cases h : (a == id) <;>
    simp [List.find?_cons, h, ih]

/-- Filling the slot of an identifier that `find?` locates makes later
searches return the filled slot. -/
theorem find_fillSlot (id : PackageId) (pkg : Package) :
    ∀ (l : List (PackageId × Option Package)) (x : PackageId × Option Package),
    l.find? (fun p => p.1 == id) = some x →
    (fillSlot l id pkg).find? (fun p => p.1 == id) = some (id, some pkg) := by
  intro l
  induction l with
  | nil => intro x h; cases h
  | cons hd rest ih =>
    intro x h
    obtain ⟨i, s⟩ := hd
    by_cases hi : i = id
    · subst hi
      simp [fillSlot, List.find?_cons]
    · have hb : (i == id) = false := by simp [hi]
      rw [List.find?_cons_of_neg _ (by simp [hb])] at h
      simp only [fillSlot, if_neg hi]
      rw [List.find?_cons_of_neg _ (by simp [hb])]
      exact ih x h

/-- A `get` on a set whose slot for `id` is already filled returns the
stored package, leaves the set unchanged, and performs no effect: no source
access and no download. -/
theorem get_of_filled (ps : PackageSet) (id : PackageId) (pkg : Package)
    (h : ps.packages.find? (fun p => p.1 == id) = some (id, some pkg)) :
    ps.get id = (Except.ok pkg, ps, []) := by
  simp [PackageSet.get, h]

/-- Claim C2: on a freshly constructed `PackageSet`, a successful `get`
performs exactly one source-map access and one `download id`, and a second
`get` of the same identifier returns the stored package with no effects at
all, leaving the set unchanged (so every later call behaves the same). -/
theorem c2_get_memoizes (ids : List PackageId)
    (srcs : List (SourceId × Source)) (id : PackageId) (pkg : Package)
    (h : ((PackageSet.new ids srcs).get id).1 = Except.ok pkg) :
    ((PackageSet.new ids srcs).get id).2.2 =
      [PkgSetEffect.source_access, PkgSetEffect.download id] ∧
    ((PackageSet.new ids srcs).get id).2.1.get id =
      (Except.ok pkg, ((PackageSet.new ids srcs).get id).2.1, []) := by
  have hfind := find_fresh ids id
  cases hf : ids.find? (fun i => i == id) with
  | none =>
    rw [hf] at hfind
    have hget : (PackageSet.new ids srcs).get id =
        (Except.error ("could not find `" ++ id.name ++ "` in package set"),
          PackageSet.new ids srcs, []) := by
      simp [PackageSet.get, PackageSet.new, hfind]
    rw [hget] at h
    cases h
  | some i =>
    rw [hf] at hfind
    have hfp : (PackageSet.new ids srcs).packages.find?
        (fun p => p.1 == id) = some (i, none) := by
      simpa [PackageSet.new] using hfind
    cases hls : lookupSource (PackageSet.new ids srcs).sources id.source_id with
    | none =>
      have hget : ((PackageSet.new ids srcs).get id).1 =
          Except.error ("could not find source for `" ++ id.name ++ "`") := by
        simp [PackageSet.get, hfp, hls]
      rw [hget] at h
      cases h
    | some source =>
      cases hdl : source.download id with
      | error e =>
        have hget : ((PackageSet.new ids srcs).get id).1 =
            Except.error "unable to get packages from source" := by
          simp [PackageSet.get, hfp, hls, hdl]
        rw [hget] at h
        cases h
      | ok pkgD =>
        have hget : (PackageSet.new ids srcs).get id =
            (Except.ok pkgD,
              { PackageSet.new ids srcs with
                  packages :=
                    fillSlot (PackageSet.new ids srcs).packages id pkgD },
              [PkgSetEffect.source_access, PkgSetEffect.download id]) := by
          simp [PackageSet.get, hfp, hls, hdl]
        have hpkg : pkgD = pkg := by
          rw [hget] at h
          simpa using h
        subst hpkg
        rw [hget]
        refine ⟨rfl, ?_⟩
        exact get_of_filled _ id pkgD (find_fillSlot id pkgD _ (i, none) hfp)

/-- Witness for C2: a one-identifier set over a one-source map resolves
`pidEx` with exactly one download, and resolves it again from the memo
slot. -/
theorem c2_get_memoizes_witness :
    ((PackageSet.new [pidEx] [(regEx, srcEx)]).get pidEx).1 =
      Except.ok pkgPlain ∧
    ((PackageSet.new [pidEx] [(regEx, srcEx)]).get pidEx).2.2 =
      [PkgSetEffect.source_access, PkgSetEffect.download pidEx] :=
  ⟨by rfl,
   (c2_get_memoizes [pidEx] [(regEx, srcEx)] pidEx pkgPlain (by rfl)).1⟩

/-- Every wire dependency record built by `transmit` carries a kind tag that
is one of the three strings "normal", "build", "dev". -/
theorem newCrateDeps_kind (pkg : Package) :
    ∀ d ∈ newCrateDeps pkg,
      d.kind = "normal" ∨ d.kind = "build" ∨ d.kind = "dev" := by
  intro d hd
  simp only [newCrateDeps, List.mem_map] at hd
  obtain ⟨dep, _, rfl⟩ := hd
  cases dep.kind <;> simp

/-- Counterexample to C3 as stated: with a declared license file that is
absent from the filesystem, `transmit` with `dry_run = true` returns an
error, not success (the license check precedes the dry-run short
circuit). -/
theorem c3_counterexample :
    (transmit pkgC3bad (fun _ => none) (Except.ok ()) true).1 =
      Except.error "the license file `LICENSE` does not exist" ∧
    (transmit pkgC3bad (fun _ => none) (Except.ok ()) true).1 ≠
      Except.ok () := by
  refine ⟨by rfl, ?_⟩
  intro h
  rw [show (transmit pkgC3bad (fun _ => none) (Except.ok ()) true).1 =
      Except.error "the license file `LICENSE` does not exist" from rfl] at h
  cases h

/-- Claim C3 (amended): provided a declared readme is readable and a
declared license file exists on disk, `transmit` with `dry_run = true`
emits the abort warning and returns success with no publish call, and with
`dry_run = false` it performs exactly one publish call whose dependency
records all carry a kind tag in "normal"/"build"/"dev". -/
theorem c3_transmit (pkg : Package) (fs : String → Option String)
    (pr : Except String Unit)
    (hreadme : ∀ r, pkg.manifest.metadata.readme = some r →
      (fs (joinPath pkg.root r)).isSome = true)
    (hlicense : ∀ f, pkg.manifest.metadata.license_file = some f →
      (fs (joinPath pkg.root f)).isSome = true) :
    transmit pkg fs pr true =
      (Except.ok (), [TransmitEffect.warn "aborting upload due to dry run"]) ∧
    (∃ krate, (transmit pkg fs pr false).2 = [TransmitEffect.publish krate] ∧
      ∀ d ∈ krate.deps,
        d.kind = "normal" ∨ d.kind = "build" ∨ d.kind = "dev") := by
  have hread : ∀ dr,
      ∃ rm, transmit pkg fs pr dr =
        (if dr then
          (Except.ok (),
            [TransmitEffect.warn "aborting upload due to dry run"])
        else
          match pr with
          | Except.ok _ =>
            (Except.ok (), [TransmitEffect.publish (mkNewCrate pkg rm)])
          | Except.error e =>
            (Except.error e, [TransmitEffect.publish (mkNewCrate pkg rm)])) := by
    intro dr
    cases hr : pkg.manifest.metadata.readme with
    | none =>
      refine ⟨none, ?_⟩
      cases hl : pkg.manifest.metadata.license_file with
      | none =>
        cases dr <;> cases pr <;> simp [transmit, hr, hl, mkNewCrate]
      | some f =>
        obtain ⟨y, hy⟩ := Option.isSome_iff_exists.mp (hlicense f hl)
        cases dr <;> cases pr <;> simp [transmit, hr, hl, hy, mkNewCrate]
    | some r =>
      obtain ⟨c, hc⟩ := Option.isSome_iff_exists.mp (hreadme r hr)
      refine ⟨some c, ?_⟩
      cases hl : pkg.manifest.metadata.license_file with
      | none =>
        cases dr <;> cases pr <;> simp [transmit, hr, hc, hl, mkNewCrate]
      | some f =>
        obtain ⟨y, hy⟩ := Option.isSome_iff_exists.mp (hlicense f hl)
        cases dr <;> cases pr <;> simp [transmit, hr, hc, hl, hy, mkNewCrate]
  constructor
  · obtain ⟨rm, heq⟩ := hread true
    simpa using heq
  · obtain ⟨rm, heq⟩ := hread false
    refine ⟨mkNewCrate pkg rm, ?_, newCrateDeps_kind pkg⟩
    cases pr <;> simp_all

/-- Witness for C3 at a concrete package (no readme, no license file): the
dry run warns and uploads nothing, and the real run publishes once. -/
theorem c3_transmit_witness :
    transmit pkgC1 (fun _ => none) (Except.ok ()) true =
      (Except.ok (), [TransmitEffect.warn "aborting upload due to dry run"]) ∧
    (∃ krate,
      (transmit pkgC1 (fun _ => none) (Except.ok ()) false).2 =
        [TransmitEffect.publish krate] ∧
      ∀ d ∈ krate.deps,
        d.kind = "normal" ∨ d.kind = "build" ∨ d.kind = "dev") :=
  c3_transmit pkgC1 (fun _ => none) (Except.ok ())
    (by intro r h; cases h) (by intro f h; cases h)

/-- On a string of one-byte characters, the UTF-8 byte length is the
character count. -/
theorem utf8Len_of_ascii (s : List Char) (h : ∀ c ∈ s, c.utf8Size = 1) :
    utf8Len s = s.length := by
  induction s with
  | nil => rfl
  | cons c cs ih =>
    have hc := h c (by simp)
    have ih2 := ih (fun x hx => h x (by simp [hx]))
    simp only [utf8Len, List.map_cons, List.sum_cons, List.length_cons] at *
    omega

/-- On a string of one-byte characters, slicing at a byte index within the
string is taking that many characters. -/
theorem byteSlice_of_ascii (s : List Char) (h : ∀ c ∈ s, c.utf8Size = 1) :
    ∀ n ≤ s.length, byteSlice s n = some (s.take n) := by
  induction s with
  | nil =>
    intro n hn
    have hz : n = 0 := Nat.le_zero.mp (by simpa using hn)
    subst hz
    rfl
  | cons c cs ih =>
    intro n hn
    cases n with
    | zero => rfl
    | succ m =>
      have hc := h c (by simp)
      have ih2 := ih (fun x hx => h x (by simp [hx])) m
        (by simpa using Nat.succ_le_succ_iff.mp hn)
      simp [byteSlice, hc, ih2]

/-- Replacing newlines with spaces leaves every character one byte wide
when the input is one byte wide. -/
theorem replaceNewline_ascii (s : List Char) (h : ∀ c ∈ s, c.utf8Size = 1) :
    ∀ c ∈ replaceNewlineWithSpace s, c.utf8Size = 1 := by
  intro c hc
  simp only [replaceNewlineWithSpace, List.mem_map] at hc
  obtain ⟨a, ha, rfl⟩ := hc
  by_cases hn : a = '\n'
  · rw [if_pos hn]
    decide
  · rw [if_neg hn]
    exact h a ha

/-- Counterexample to C4 as stated: a 200-character description truncates to
127 characters plus the ellipsis, not 128 plus the ellipsis, and a
description of exactly 128 characters is truncated rather than returned
unchanged. -/
theorem c4_counterexample :
    truncate_with_ellipsis
        (replaceNewlineWithSpace (List.replicate 200 'a')) 128 =
      some (List.replicate 127 'a' ++ ['…']) ∧
    truncate_with_ellipsis
        (replaceNewlineWithSpace (List.replicate 200 'a')) 128 ≠
      some (List.replicate 128 'a' ++ ['…']) ∧
    truncate_with_ellipsis (List.replicate 128 'a') 128 ≠
      some (List.replicate 128 'a') := by
  refine ⟨by decide, by decide, by decide⟩

/-- Claim C4 (amended): lengths are measured in bytes, and the threshold is
strict on the other side: over one-byte characters, a description whose
newline-collapsed form is shorter than 128 characters is returned
unchanged, and one of 128 characters or more is truncated to its first 127
characters followed by a single ellipsis; newlines are replaced by spaces
before truncation. -/
theorem c4_truncate (s : List Char) (h : ∀ c ∈ s, c.utf8Size = 1) :
    ((replaceNewlineWithSpace s).length < 128 →
      search_description s = some (replaceNewlineWithSpace s)) ∧
    (128 ≤ (replaceNewlineWithSpace s).length →
      search_description s =
        some ((replaceNewlineWithSpace s).take 127 ++ ['…'])) := by
  have h2 := replaceNewline_ascii s h
  have hlen := utf8Len_of_ascii _ h2
  constructor
  · intro hlt
    have : utf8Len (replaceNewlineWithSpace s) < 128 := by omega
    simp [search_description, truncate_with_ellipsis, this]
  · intro hge
    have hnot : ¬ utf8Len (replaceNewlineWithSpace s) < 128 := by omega
    have hsl := byteSlice_of_ascii _ h2 127 (by omega)
    simp [search_description, truncate_with_ellipsis, hnot, hsl]

/-- Witness for C4: a 50-character description is unchanged, a 200-character
one becomes 127 characters plus an ellipsis, and a newline becomes a
space. -/
theorem c4_truncate_witness :
    search_description (List.replicate 50 'a') =
      some (replaceNewlineWithSpace (List.replicate 50 'a')) ∧
    search_description (List.replicate 200 'a') =
      some ((replaceNewlineWithSpace (List.replicate 200 'a')).take 127 ++
        ['…']) ∧
    replaceNewlineWithSpace ['a', '\n', 'b'] = ['a', ' ', 'b'] :=
  ⟨(c4_truncate (List.replicate 50 'a') (by decide)).1 (by decide),
   (c4_truncate (List.replicate 200 'a') (by decide)).2 (by decide),
   by decide⟩

/-- Claim C10: truncation measures bytes, not characters: there is a
description whose newline-collapsed form exceeds 128 bytes on which the
byte slice at index 127 falls inside a multi-byte character, so the
operation panics (modelled as `none`); and there is even a description of
fewer than 128 characters that still enters the truncation branch and
panics. -/
theorem c10_truncate_measures_bytes :
    (∃ s : List Char, 128 < utf8Len (replaceNewlineWithSpace s) ∧
      truncate_with_ellipsis (replaceNewlineWithSpace s) 128 = none) ∧
    (∃ s : List Char, s.length < 128 ∧
      truncate_with_ellipsis s 128 = none) := by
  constructor
  · exact ⟨List.replicate 126 'a' ++ 'é' :: List.replicate 10 'a',
      by decide, by decide⟩
  · exact ⟨List.replicate 64 'é', by decide, by decide⟩

/-- Counterexample to C5 as stated: constructing a `PackageSet` from a list
that repeats an identifier stores that identifier twice, so the stored
identifiers are not pairwise distinct for every input list. -/
theorem c5_counterexample :
    ¬ ((PackageSet.new [pidEx, pidEx] []).package_ids).Nodup := by
  decide

/-- Claim C5 (amended): `PackageSet::new` stores the given identifiers
verbatim, so the stored identifiers are pairwise distinct whenever the
input list is pairwise distinct (and only then). -/
theorem c5_new_distinct (ids : List PackageId)
    (srcs : List (SourceId × Source)) (h : ids.Nodup) :
    (PackageSet.new ids srcs).package_ids = ids ∧
    (PackageSet.new ids srcs).package_ids.Nodup := by
  have hid : (PackageSet.new ids srcs).package_ids = ids := by
    simp only [PackageSet.new, PackageSet.package_ids, List.map_map]
    exact List.map_id ids
  refine ⟨hid, ?_⟩
  rw [hid]
  exact h

/-- Witness for C5: two distinct identifiers stay distinct. -/
theorem c5_new_distinct_witness :
    (PackageSet.new [pidEx, pidEx2] []).package_ids = [pidEx, pidEx2] ∧
    (PackageSet.new [pidEx, pidEx2] []).package_ids.Nodup :=
  c5_new_distinct [pidEx, pidEx2] [] (by decide)

/-- Specification of the `min_by_key` fold: its result is a minimum of the
key over the start element and the list, and it sits at a position before
which every element has a strictly larger key (the first minimal element
wins ties). -/
theorem minFold_spec {α : Type} (xs : List (Nat × α)) : ∀ x : Nat × α,
    (∀ p ∈ x :: xs, (minFold x xs).1 ≤ p.1) ∧
    ∃ l1 l2, x :: xs = l1 ++ (minFold x xs) :: l2 ∧
      ∀ p ∈ l1, (minFold x xs).1 < p.1 := by
  induction xs with
  | nil =>
    intro x
    refine ⟨?_, [], [], rfl, by simp⟩
    intro p hp
    have : p = x := by simpa using hp
    subst this
    exact Nat.le_refl _
  | cons y ys ih =>
    intro x
    by_cases hy : y.1 < x.1
    · have hm : minFold x (y :: ys) = minFold y ys := by
        simp [minFold, hy]
      rw [hm]
      obtain ⟨hmin, l1, l2, hdec, hlt⟩ := ih y
      have hry : (minFold y ys).1 ≤ y.1 := hmin y (by simp)
      constructor
      · intro p hp
        rcases List.mem_cons.mp hp with rfl | hp2
        · omega
        · exact hmin p hp2
      · refine ⟨x :: l1, l2, ?_, ?_⟩
        · rw [List.cons_append, ← hdec]
        · intro p hp
          rcases List.mem_cons.mp hp with rfl | hp2
          · omega
          · exact hlt p hp2
    · have hm : minFold x (y :: ys) = minFold x ys := by
        simp [minFold, hy]
      rw [hm]
      obtain ⟨hmin, l1, l2, hdec, hlt⟩ := ih x
      have hrx : (minFold x ys).1 ≤ x.1 := hmin x (by simp)
      have hxy : x.1 ≤ y.1 := Nat.le_of_not_lt hy
      constructor
      · intro p hp
        rcases List.mem_cons.mp hp with rfl | hp2
        · exact hrx
        · rcases List.mem_cons.mp hp2 with rfl | hp3
          · omega
          · exact hmin p (List.mem_cons_of_mem _ hp3)
      · cases l1 with
        | nil =>
          simp only [List.nil_append] at hdec
          injection hdec with hdx hdl
          refine ⟨[], y :: ys, ?_, by simp⟩
          rw [List.nil_append, ← hdx]
        | cons a l1t =>
          rw [List.cons_append] at hdec
          injection hdec with ha ht
          have hax : (minFold x ys).1 < x.1 := by
            have h := hlt a (by simp)
            rw [← ha] at h
            exact h
          refine ⟨x :: y :: l1t, l2, ?_, ?_⟩
          · rw [List.cons_append, List.cons_append, ← ht]
          · intro p hp
            rcases List.mem_cons.mp hp with hpx | hp2
            · rw [hpx]
              exact hax
            · rcases List.mem_cons.mp hp2 with hpy | hp3
              · rw [hpy]
                omega
              · exact hlt p (List.mem_cons_of_mem _ hp3)

/-- Membership in the candidate list of `find_closest_target`: exactly the
targets of the package that match the kind and whose name is at edit
distance below 4 from the query, paired with that distance. -/
theorem mem_closestCandidates (p : Package) (target : String)
    (kind : TargetKind) (d : Nat) (t : Target) :
    (d, t) ∈ closestCandidates p target kind ↔
      t ∈ p.targets ∧ t.kind = kind ∧ d = lev_distance target t.name ∧
      d < 4 := by
  simp only [closestCandidates, List.mem_filter, List.mem_map,
    decide_eq_true_eq, beq_iff_eq]
  constructor
  · rintro ⟨⟨a, ⟨hat, hak⟩, heq⟩, hd⟩
    cases heq
    exact ⟨hat, hak, rfl, hd⟩
  · rintro ⟨hat, hak, rfl, hd⟩
    exact ⟨⟨t, ⟨hat, hak⟩, rfl⟩, hd⟩

/-- Claim C6: `find_closest_target` returns none exactly when no target of
the kind is within edit distance 4 of the query; when it returns a target,
that target matches the kind, lies within the threshold, achieves the
minimum distance among all qualifying targets, and is the first minimal
candidate in target-list order (every earlier candidate has a strictly
larger distance). -/
theorem c6_find_closest_target (p : Package) (target : String)
    (kind : TargetKind) :
    (p.find_closest_target target kind = none ↔
      ∀ t ∈ p.targets, t.kind = kind → 4 ≤ lev_distance target t.name) ∧
    (∀ t, p.find_closest_target target kind = some t →
      t ∈ p.targets ∧ t.kind = kind ∧ lev_distance target t.name < 4 ∧
      (∀ u ∈ p.targets, u.kind = kind → lev_distance target u.name < 4 →
        lev_distance target t.name ≤ lev_distance target u.name) ∧
      (∃ l1 l2, closestCandidates p target kind =
          l1 ++ (lev_distance target t.name, t) :: l2 ∧
        ∀ q ∈ l1, lev_distance target t.name < q.1)) := by
  constructor
  · cases hc : closestCandidates p target kind with
    | nil =>
      simp only [Package.find_closest_target, minByFirst, hc,
        Option.map_none', true_iff]
      intro t ht hk
      by_contra hlt
      push_neg at hlt
      have hmem : (lev_distance target t.name, t) ∈
          closestCandidates p target kind :=
        (mem_closestCandidates p target kind _ t).mpr ⟨ht, hk, rfl, hlt⟩
      rw [hc] at hmem
      cases hmem
    | cons c cs =>
      simp only [Package.find_closest_target, minByFirst, hc,
        Option.map_some', reduceCtorEq, false_iff]
      intro hall
      have hcmem : c ∈ closestCandidates p target kind := by
        rw [hc]; exact List.mem_cons_self c cs
      have hpair : (c.1, c.2) ∈ closestCandidates p target kind := by
        rw [Prod.mk.eta]; exact hcmem
      have hchar := (mem_closestCandidates p target kind c.1 c.2).mp hpair
      have h4 := hall c.2 hchar.1 hchar.2.1
      have h1 := hchar.2.2.1
      have h2 := hchar.2.2.2
      omega
  · intro t hsome
    cases hc : closestCandidates p target kind with
    | nil =>
      rw [Package.find_closest_target, hc] at hsome
      cases hsome
    | cons c cs =>
      rw [Package.find_closest_target, hc] at hsome
      simp only [minByFirst, Option.map_some'] at hsome
      have ht : (minFold c cs).2 = t := Option.some.inj hsome
      obtain ⟨hmin, l1, l2, hdec, hlt⟩ := minFold_spec cs c
      have hrmem : minFold c cs ∈ c :: cs := by
        rw [hdec]
        exact List.mem_append_right l1 (List.mem_cons_self _ l2)
      have hrc : minFold c cs ∈ closestCandidates p target kind := by
        rw [hc]; exact hrmem
      have hpair : ((minFold c cs).1, (minFold c cs).2) ∈
          closestCandidates p target kind := by
        rw [Prod.mk.eta]; exact hrc
      have hchar :=
        (mem_closestCandidates p target kind (minFold c cs).1
          (minFold c cs).2).mp hpair
      rw [ht] at hchar
      obtain ⟨htmem, htkind, hd1, hd4⟩ := hchar
      refine ⟨htmem, htkind, by omega, ?_, ?_⟩
      · intro u hu huk hud
        have humem : (lev_distance target u.name, u) ∈
            closestCandidates p target kind :=
          (mem_closestCandidates p target kind _ u).mpr ⟨hu, huk, rfl, hud⟩
        rw [hc] at humem
        have := hmin _ humem
        simp only at this
        omega
      · have hr : minFold c cs = (lev_distance target t.name, t) := by
          rw [← hd1, ← ht]
        refine ⟨l1, l2, ?_, ?_⟩
        · rw [hdec, hr]
        · intro q hq
          have := hlt q hq
          omega

/-- Witness for C6: over binary targets "serv" and "client", querying
"server" returns "serv" (edit distance 2, below the threshold); over a
lone target "client" (distance at least 4) it returns none. -/
theorem c6_find_closest_target_witness :
    pkgC6.find_closest_target "server" TargetKind.Bin =
      some ⟨"serv", TargetKind.Bin⟩ ∧
    lev_distance "server" "serv" < 4 ∧
    pkgC6far.find_closest_target "server" TargetKind.Bin = none :=
  ⟨by decide,
   ((c6_find_closest_target pkgC6 "server" TargetKind.Bin).2
      ⟨"serv", TargetKind.Bin⟩ (by decide)).2.2.1,
   by decide⟩

/-- Percent-encoding distributes over concatenation of byte strings. -/
theorem percent_encode_append (q1 q2 : List UInt8) :
    percent_encode (q1 ++ q2) = percent_encode q1 ++ percent_encode q2 := by
  induction q1 with
  | nil => rfl
  | cons b rest ih =>
    simp [percent_encode, ih, List.append_assoc]

/-- Claim C7: when the total exceeds the limit, the hint below limit 100 is
the increase-limit wording and at limit 100 or above it is the web-URL
wording with the query percent-encoded; when the total does not exceed the
limit, no hint is printed; and percent-encoding turns a space byte into
"%20". -/
theorem c7_search_hint (total limit : Nat) (q : List UInt8) :
    (total > limit → limit < 100 → search_hint total limit q =
      some ("... and " ++ toString (total - limit) ++
        " crates more (use --limit N to see more)")) ∧
    (total > limit → 100 ≤ limit → search_hint total limit q =
      some ("... and " ++ toString (total - limit) ++
        " crates more (go to http://crates.io/search?q=" ++
        String.mk (percent_encode q) ++ " to see more)")) ∧
    (total ≤ limit → search_hint total limit q = none) ∧
    (∀ q1 q2, percent_encode (q1 ++ 0x20 :: q2) =
      percent_encode q1 ++ '%' :: '2' :: '0' :: percent_encode q2) := by
  refine ⟨?_, ?_, ?_, ?_⟩
  · intro h1 h2
    simp [search_hint, h1, h2]
  · intro h1 h2
    have h3 : ¬ limit < 100 := by omega
    simp [search_hint, h1, h2, h3]
  · intro h
    have h1 : ¬ total > limit := by omega
    simp [search_hint, h1]
  · intro q1 q2
    rw [percent_encode_append]
    have hb : percentEncodeByte 0x20 = ['%', '2', '0'] := by decide
    have hsp : percent_encode (0x20 :: q2) =
        '%' :: '2' :: '0' :: percent_encode q2 := by
      simp only [percent_encode, hb]
      rfl
    rw [hsp]

/-- Witness for C7: total 150 with limit 50 prints the increase-limit hint,
and with limit 100 prints the web-URL hint; the query "foo bar"
percent-encodes its space to "%20". -/
theorem c7_search_hint_witness :
    search_hint 150 50 qC7 =
      some ("... and " ++ toString (150 - 50) ++
        " crates more (use --limit N to see more)") ∧
    search_hint 150 100 qC7 =
      some ("... and " ++ toString (150 - 100) ++
        " crates more (go to http://crates.io/search?q=" ++
        String.mk (percent_encode qC7) ++ " to see more)") ∧
    String.mk (percent_encode qC7) = "foo%20bar" :=
  ⟨(c7_search_hint 150 50 qC7).1 (by decide) (by decide),
   (c7_search_hint 150 100 qC7).2.1 (by decide) (by decide),
   by decide⟩

/-- Claim C8: on a successful bootstrap, the client token is the explicit
argument when present, else the persisted `registry.token` value; the
registry source identifier is derived from the explicit index argument when
present, else the persisted `registry.index` value, else the built-in
default registry URL. -/
theorem c8_registry_resolution (renv : RegistryEnv) (henv : HttpEnv)
    (config : Config) (token index : Option String) (reg : Registry)
    (sid : SourceId)
    (h : registry renv henv config token index = Except.ok (reg, sid)) :
    reg.token = token.or (registry_configuration config).token ∧
    sid = SourceId.for_registry
      ((index.or (registry_configuration config).index).getD default_url) ∧
    (token = none → reg.token = config.get_string "registry.token") ∧
    (∀ t, token = some t → reg.token = some t) ∧
    (∀ i, index = some i → sid.url = i) ∧
    (index = none → ∀ i, (registry_configuration config).index = some i →
      sid.url = i) ∧
    (index = none → (registry_configuration config).index = none →
      sid.url = default_url) := by
  simp only [registry] at h
  split at h
  · simp at h
  · rename_i indexUrl hu
    split at h
    · simp at h
    · split at h
      · simp at h
      · rename_i api_host hapi
        split at h
        · simp at h
        · rename_i handle hh
          simp only [Except.ok.injEq, Prod.mk.injEq] at h
          obtain ⟨hreg, hsid⟩ := h
          have hiu : indexUrl =
              (index.or (registry_configuration config).index).getD
                default_url := by
            unfold to_url at hu
            split at hu
            · simp at hu
            · simp only [Except.ok.injEq] at hu
              exact hu.symm
          have h1 : reg.token =
              token.or (registry_configuration config).token := by
            rw [← hreg]
          have h2 : sid = SourceId.for_registry
              ((index.or (registry_configuration config).index).getD
                default_url) := by
            rw [← hsid, hiu]
          refine ⟨h1, h2, ?_, ?_, ?_, ?_, ?_⟩
          · intro ht
            rw [h1, ht]
            rfl
          · intro t ht
            rw [h1, ht]
            rfl
          · intro i hi
            rw [h2, hi]
            rfl
          · intro hi i hci
            rw [h2, hi, hci]
            rfl
          · intro hi hci
            rw [h2, hi, hci]
            rfl

/-- Witness for C8: with no explicit arguments over a store holding only a
token, the bootstrap succeeds, binds the persisted token, and derives the
source identifier from the built-in default URL. -/
theorem c8_registry_resolution_witness :
    registry renvC8 henvC8 cfgC8 none none =
      Except.ok (regC8out, SourceId.for_registry default_url) ∧
    regC8out.token =
      Option.or none (registry_configuration cfgC8).token ∧
    regC8out.token = cfgC8.get_string "registry.token" :=
  ⟨by rfl,
   (c8_registry_resolution renvC8 henvC8 cfgC8 none none regC8out
      (SourceId.for_registry default_url) (by rfl)).1,
   (c8_registry_resolution renvC8 henvC8 cfgC8 none none regC8out
      (SourceId.for_registry default_url) (by rfl)).2.2.1 rfl⟩

/-- Claim C9: whenever the version argument is absent and the package name
is given or resolvable, `yank` fails with exactly the message "a version
must be specified to yank", with an empty effect trace: no registry client
construction, no status line, and no yank or unyank call. -/
theorem c9_yank_requires_version (env : YankEnv) (krate : Option String)
    (undo : Bool)
    (h : krate.isSome = true ∨ ∃ n, env.workspace_name = Except.ok n) :
    yank env krate none undo =
      (Except.error "a version must be specified to yank", []) := by
  cases krate with
  | some name => simp [yank]
  | none =>
    rcases h with h | ⟨n, hn⟩
    · simp at h
    · simp [yank, hn]

/-- Witness for C9: yanking "crate1" with no version fails with the exact
message and performs nothing. -/
theorem c9_yank_requires_version_witness :
    yank envC9 (some "crate1") none false =
      (Except.error "a version must be specified to yank", []) :=
  c9_yank_requires_version envC9 (some "crate1") false (Or.inl rfl)

end Cargo
